import Mathlib

/-!
Verification of the checkpoint / preservation-guard core of
`obsidian_vault_reviewer.py`.

Python strings are modelled as `List Char` (a Python `str` is a sequence of
code points).  Python's `str.strip`, `str.split`, `str.replace`, substring
testing (`in`), and the concrete regular expressions used by the program are
translated into executable Lean functions below.  Character classes are the
ASCII versions of Python's (`\w`, `\s`, `upper`, `lower` agree with the
Python behaviour on ASCII text, which is all the program's own literals use).
The float comparison `preservation_ratio >= 0.8` is modelled exactly as the
rational comparison `4 * total <= 5 * matched`; for every list length below
2^53 the IEEE-double computation in the source decides exactly this
predicate.
-/

/-- Python `str.isspace` characters used by `strip()` and `\s` (ASCII part). -/
def pyIsSpace (c : Char) : Bool :=
  c = ' ' || c = '\t' || c = '\n' || c = '\r' || c = '\x0b' || c = '\x0c'

/-- Python `str.strip()` with no argument: drop whitespace from both ends. -/
def pyStrip (l : List Char) : List Char :=
  ((l.dropWhile pyIsSpace).reverse.dropWhile pyIsSpace).reverse

/-- Python `str.strip(c)` for a single character argument. -/
def pyStripChar (c : Char) (l : List Char) : List Char :=
  ((l.dropWhile (fun x => x = c)).reverse.dropWhile (fun x => x = c)).reverse

/-- Python `text.split(sep)` for a one-character separator (`'\n'` in the
source).  `"".split('\n') = ['']` and separators at the ends produce empty
parts, exactly as in Python. -/
def splitOnChar (sep : Char) : List Char → List (List Char)
  | [] => [[]]
  | c :: rest =>
    if c = sep then [] :: splitOnChar sep rest
    else
      match splitOnChar sep rest with
      | r :: rs => (c :: r) :: rs
      | [] => [[c]]

/-- Python `'\n'.join(lines)`. -/
def joinLines : List (List Char) → List Char
  | [] => []
  | [l] => l
  | l :: ls => l ++ '\n' :: joinLines ls

/-- The list comprehension
`[line.strip() for line in text.split('\n') if line.strip()]`
used both by `normalize_text` and by the line-matching pass of
`validate_content_preservation`. -/
def nonBlankStripped (t : List Char) : List (List Char) :=
  ((splitOnChar '\n' t).map pyStrip).filter (fun l => !l.isEmpty)

/-- The inner helper `normalize_text` of `validate_content_preservation`:
strip every line, drop blank lines, re-join with newlines. -/
def normalize_text (t : List Char) : List Char :=
  joinLines (nonBlankStripped t)

/-- Python `\w` (ASCII): letters, digits, underscore. -/
def wordChar (c : Char) : Bool :=
  c.isAlphanum || c = '_'

/-- `re.sub(r'[^\w\s]', '', line.lower())` from the fuzzy line match. -/
def cleanLine (l : List Char) : List Char :=
  (l.map Char.toLower).filter (fun c => wordChar c || pyIsSpace c)

/-- Scanner for `re.findall(r'\[\[([^\]]+)\]\]', text)`: scan left to
right; at `[[` take the maximal nonempty run of non-`]` characters; if `]]`
follows, emit the run and continue after the match, otherwise resume the
scan one character further (the `[^\]]+` class cannot backtrack past a
`]`).  The `fuel` argument only makes the recursion structural; every step
consumes at least one character, so `fuel = length` never runs out. -/
def findLinksGo : Nat → List Char → List (List Char)
  | 0, _ => []
  | fuel + 1, '[' :: '[' :: rest =>
    let grp := rest.takeWhile (fun c => c ≠ ']')
    let after := rest.dropWhile (fun c => c ≠ ']')
    if !grp.isEmpty && after.take 2 = [']', ']'] then
      grp :: findLinksGo fuel (after.drop 2)
    else
      findLinksGo fuel ('[' :: rest)
  | fuel + 1, _ :: rest => findLinksGo fuel rest
  | _ + 1, [] => []

/-- `re.findall(r'\[\[([^\]]+)\]\]', text)` — the `[[...]]` link names. -/
def findLinks (l : List Char) : List (List Char) :=
  findLinksGo l.length l

/-- Scanner for `re.findall(r'#(\w+)', text)`: at `#`, a nonempty maximal
run of word characters is a tag; continue after the run. -/
def findTagsGo : Nat → List Char → List (List Char)
  | 0, _ => []
  | fuel + 1, '#' :: rest =>
    let run := rest.takeWhile wordChar
    if !run.isEmpty then run :: findTagsGo fuel (rest.dropWhile wordChar)
    else findTagsGo fuel rest
  | fuel + 1, _ :: rest => findTagsGo fuel rest
  | _ + 1, [] => []

/-- `re.findall(r'#(\w+)', text)` — the `#tag` names. -/
def findTags (l : List Char) : List (List Char) :=
  findTagsGo l.length l

/-- Scanner for `re.findall(r'!\[[^\]]*\]\([^)]+\)', text)`: full matches
of the embedded-image pattern. -/
def findImagesGo : Nat → List Char → List (List Char)
  | 0, _ => []
  | fuel + 1, '!' :: '[' :: rest =>
    let alt := rest.takeWhile (fun c => c ≠ ']')
    let after := rest.dropWhile (fun c => c ≠ ']')
    if after.take 2 = [']', '('] then
      let url := (after.drop 2).takeWhile (fun c => c ≠ ')')
      let after2 := (after.drop 2).dropWhile (fun c => c ≠ ')')
      if !url.isEmpty && after2.take 1 = [')'] then
        ('!' :: '[' :: alt ++ ']' :: '(' :: url ++ [')']) :: findImagesGo fuel (after2.drop 1)
      else findImagesGo fuel ('[' :: rest)
    else findImagesGo fuel ('[' :: rest)
  | fuel + 1, _ :: rest => findImagesGo fuel rest
  | _ + 1, [] => []

/-- `re.findall(r'!\[[^\]]*\]\([^)]+\)', text)` — embedded-image markers. -/
def findImages (l : List Char) : List (List Char) :=
  findImagesGo l.length l

/-- One original line matched against one candidate line: exact equality,
containment for lines longer than 10 characters, or punctuation- and
case-insensitive containment for lines longer than 5 characters. -/
def lineMatches (orig enh : List Char) : Bool :=
  orig == enh
    || (decide (10 < orig.length) && decide (orig <:+: enh))
    || (decide (5 < orig.length) &&
          (!(cleanLine orig).isEmpty && decide (cleanLine orig <:+: cleanLine enh)))

/-- Number of original lines matched by some candidate line (the
`matched_lines` counter). -/
def countMatched (ols els : List (List Char)) : Nat :=
  (ols.filter (fun o => els.any (fun e => lineMatches o e))).length

/-- `preservation_ratio >= 0.8`, with `preservation_ratio = 1` when the
original has no non-blank lines. -/
def preservationFractionOk (original enhanced : List Char) : Bool :=
  let ol := nonBlankStripped original
  if ol.isEmpty then true
  else decide (4 * ol.length ≤ 5 * countMatched ol (nonBlankStripped enhanced))

/-- `all(link in enh_links for link in orig_links)`. -/
def links_preserved (original enhanced : List Char) : Bool :=
  (findLinks original).all (fun l => decide (l ∈ findLinks enhanced))

/-- `all(tag in enh_tags for tag in orig_tags)`. -/
def tags_preserved (original enhanced : List Char) : Bool :=
  (findTags original).all (fun t => decide (t ∈ findTags enhanced))

/-- `all(img in enhanced for img in orig_images)` — note the source checks
substring containment in the raw candidate text, not membership in the
candidate's extracted image list. -/
def images_preserved (original enhanced : List Char) : Bool :=
  (findImages original).all (fun i => decide (i <:+: enhanced))

/-- `validate_content_preservation(original, enhanced)` from the source:
length check, normalized-substring check, then line fraction plus marker
preservation. -/
def validate_content_preservation (original enhanced : List Char) : Bool :=
  if enhanced.length < original.length then false
  else if decide (normalize_text original <:+: normalize_text enhanced) then true
  else
    preservationFractionOk original enhanced
      && links_preserved original enhanced
      && tags_preserved original enhanced
      && images_preserved original enhanced

/-- Python `s.replace(pat, '')` for a nonempty pattern `p :: ps`: leftmost
nonoverlapping occurrences deleted, scanning resumes after each occurrence.
Fuel-structural; each step consumes at least one character. -/
def replaceSeqGo (p : Char) (ps : List Char) : Nat → List Char → List Char
  | 0, l => l
  | _ + 1, [] => []
  | fuel + 1, c :: r =>
    if (p :: ps).isPrefixOf (c :: r) then replaceSeqGo p ps fuel (r.drop ps.length)
    else c :: replaceSeqGo p ps fuel r

/-- Python `s.replace(pat, '')`. -/
def pyReplaceDel (pat : List Char) (l : List Char) : List Char :=
  match pat with
  | [] => l
  | p :: ps => replaceSeqGo p ps l.length l

/-- The character class `[A-Z\s]` of the marker-stripping regex. -/
def isMarkerInner (c : Char) : Bool :=
  ('A' ≤ c && c ≤ 'Z') || pyIsSpace c

/-- `re.sub(r'={3,}[A-Z\s]+={3,}', '', text)`: at each position, a run of
at least three `=`, then a nonempty run of `[A-Z\s]`, then a run of at
least three `=` (all maximal — the classes are disjoint, so the greedy
match cannot backtrack) is deleted; otherwise advance one character. -/
def subMarkersGo : Nat → List Char → List Char
  | 0, l => l
  | _ + 1, [] => []
  | fuel + 1, c :: r =>
    let k := ((c :: r).takeWhile (fun x => x = '=')).length
    if 3 ≤ k then
      let rest1 := (c :: r).drop k
      let m := (rest1.takeWhile isMarkerInner).length
      if 1 ≤ m then
        let rest2 := rest1.drop m
        let t := (rest2.takeWhile (fun x => x = '=')).length
        if 3 ≤ t then subMarkersGo fuel (rest2.drop t)
        else c :: subMarkersGo fuel r
      else c :: subMarkersGo fuel r
    else c :: subMarkersGo fuel r

/-- `re.sub(r'={3,}[A-Z\s]+={3,}', '', text)`. -/
def subMarkers (l : List Char) : List Char :=
  subMarkersGo l.length l

/-- `re.sub(r'^={3,}$', '', text, flags=re.MULTILINE)`: a line consisting
of three or more `=` only is replaced by an empty line. -/
def subEqLines (t : List Char) : List Char :=
  joinLines ((splitOnChar '\n' t).map
    (fun l => if 3 ≤ l.length && l.all (fun c => c = '=') then [] else l))

/-- The `instruction_indicators` list from `clean_leaked_instructions`. -/
def instruction_indicators : List (List Char) :=
  [ "🚨 CRITICAL SAFETY REQUIREMENTS".toList,
    "CRITICAL SAFETY REQUIREMENTS".toList,
    "SAFETY REQUIREMENTS".toList,
    "NEVER DELETE OR MODIFY ANY EXISTING CONTENT".toList,
    "ONLY ADD NEW CONTENT".toList,
    "PRESERVE ALL FORMATTING".toList,
    "NO CORRECTIONS".toList,
    "MUST BE FOLLOWED:".toList,
    "Enhancement Goals:".toList,
    "REPEATED FOR EMPHASIS".toList,
    "===BEGIN ORIGINAL CONTENT===".toList,
    "===END ORIGINAL CONTENT===".toList,
    "BEGIN ORIGINAL CONTENT".toList,
    "END ORIGINAL CONTENT".toList,
    "===BEGIN ENHANCEMENT===".toList,
    "===END ENHANCEMENT===".toList,
    "===TEXT ENHANCEMENT===".toList,
    "===ENHANCEMENT===".toList,
    "BEGIN ENHANCEMENT".toList,
    "END ENHANCEMENT".toList,
    "File:".toList,
    "CURRENT NOTE TO ENHANCE:".toList,
    "YOUR TASK:".toList,
    "STRICT RULES FOR ENHANCEMENT:".toList,
    "ATOMIC NOTE ENHANCEMENT FOCUS:".toList,
    "LINKING STRATEGY:".toList,
    "CRITICAL OUTPUT REQUIREMENTS:".toList ]

/-- The ten literal `.replace(marker, "")` calls, in source order. -/
def contentMarkers : List (List Char) :=
  [ "===BEGIN ORIGINAL CONTENT===".toList,
    "===END ORIGINAL CONTENT===".toList,
    "BEGIN ORIGINAL CONTENT".toList,
    "END ORIGINAL CONTENT".toList,
    "===BEGIN ENHANCEMENT===".toList,
    "===END ENHANCEMENT===".toList,
    "===TEXT ENHANCEMENT===".toList,
    "===ENHANCEMENT===".toList,
    "BEGIN ENHANCEMENT".toList,
    "END ENHANCEMENT".toList ]

/-- `any(indicator.upper() in line_upper for indicator in instruction_indicators)`. -/
def containsInstruction (line : List Char) : Bool :=
  instruction_indicators.any
    (fun ind => decide ((ind.map Char.toUpper) <:+: (line.map Char.toUpper)))

/-- `line.strip().startswith("File:") and len(line.strip()) < 50`. -/
def isFileColonLine (line : List Char) : Bool :=
  ("File:".toList).isPrefixOf (pyStrip line) && decide ((pyStrip line).length < 50)

/-- `"SAFETY REQUIREMENT" in line_upper or "CRITICAL" in line_upper and
"REQUIREMENT" in line_upper` (Python precedence: `or` over `and`). -/
def isSafetyTrigger (line : List Char) : Bool :=
  decide (("SAFETY REQUIREMENT".toList) <:+: (line.map Char.toUpper))
    || (decide (("CRITICAL".toList) <:+: (line.map Char.toUpper))
        && decide (("REQUIREMENT".toList) <:+: (line.map Char.toUpper)))

/-- The tuple of prefixes in the skip-mode content test. -/
def skipModePrefixes : List (List Char) :=
  [ "1.".toList, "2.".toList, "3.".toList, "4.".toList, "5.".toList,
    "-".toList, "✅".toList, "❌".toList ]

/-- `line.strip().startswith(('1.','2.','3.','4.','5.','-','✅','❌'))`. -/
def startsWithAnyMarker (l : List Char) : Bool :=
  skipModePrefixes.any (fun s => s.isPrefixOf l)

/-- The skip-mode exit test: the line looks like real note content. -/
def looksLikeContent (line : List Char) : Bool :=
  !(pyStrip line).isEmpty && !startsWithAnyMarker (pyStrip line)
    && !containsInstruction line

/-- The line-filtering loop of `clean_leaked_instructions`: state is the
`skip_mode` flag; a line is kept only when not skipping and free of
instruction indicators. -/
def cleanLoop : List (List Char) → Bool → List (List Char)
  | [], _ => []
  | line :: rest, skipMode =>
    if isFileColonLine line then cleanLoop rest skipMode
    else if isSafetyTrigger line then cleanLoop rest true
    else if skipMode then
      if looksLikeContent line then line :: cleanLoop rest false
      else cleanLoop rest true
    else if !containsInstruction line then line :: cleanLoop rest false
    else cleanLoop rest false

/-- `clean_leaked_instructions`: literal marker removal, the two regex
substitutions, the line-filtering loop, then removal of leading blank
lines. -/
def clean_leaked_instructions (t : List Char) : List Char :=
  let t1 := contentMarkers.foldl (fun acc pat => pyReplaceDel pat acc) t
  let t2 := subEqLines (subMarkers t1)
  let cleaned := cleanLoop (splitOnChar '\n' t2) false
  joinLines (cleaned.dropWhile (fun l => (pyStrip l).isEmpty))

/-- Python `s.split(sep)` for a nonempty separator `s0 :: srest`
(fuel-structural; each step consumes at least one character). -/
def pySplitSeqGo (s0 : Char) (srest : List Char) : Nat → List Char → List (List Char)
  | 0, l => [l]
  | _ + 1, [] => [[]]
  | fuel + 1, c :: r =>
    if (s0 :: srest).isPrefixOf (c :: r) then
      [] :: pySplitSeqGo s0 srest fuel (r.drop srest.length)
    else
      match pySplitSeqGo s0 srest fuel r with
      | p :: ps => (c :: p) :: ps
      | [] => [[c]]

/-- Python `s.split(sep)` for a nonempty separator. -/
def pySplitSeq (sep : List Char) (l : List Char) : List (List Char) :=
  match sep with
  | [] => [l]
  | s0 :: srest => pySplitSeqGo s0 srest l.length l

/-- The markdown code-fence stripping at the top of `enhance_note`'s `try`
block: `split('```markdown')[1].split('```')[0].strip()` (resp. with
`'```'`) when the response starts with a fence. -/
def stripMarkdownFence (ec : List Char) : List Char :=
  if ("```markdown".toList).isPrefixOf ec then
    pyStrip ((pySplitSeq "```".toList ((pySplitSeq "```markdown".toList ec).getD 1 [])).getD 0 [])
  else if ("```".toList).isPrefixOf ec then
    pyStrip ((pySplitSeq "```".toList ((pySplitSeq "```".toList ec).getD 1 [])).getD 0 [])
  else ec

/-- The `try` block of `enhance_note` (source lines 1099–1129), which alone
decides the returned text: the provider call either raises (`Except.error`)
or returns raw text; the raw text is stripped, de-fenced, cleaned of leaked
instructions, and the result is returned only if
`validate_content_preservation` accepts it, otherwise the original
`content` is returned.  The prompt-building steps before the `try` block do
not touch `content` or the return value. -/
def enhance_note (content : List Char) (api : Except Unit (List Char)) : List Char :=
  match api with
  | .error _ => content
  | .ok t =>
    let enhanced := clean_leaked_instructions (stripMarkdownFence (pyStrip t))
    if !(validate_content_preservation content enhanced) then content else enhanced

/-- A configuration value (the config dict holds booleans and integers). -/
inductive CVal where
  | b (x : Bool)
  | n (x : Nat)
deriving DecidableEq

/-- Python `dict` assignment `m[k] = v` on an association list: update in
place if the key exists, else append (insertion order preserved). -/
def dictSet (m : List (List Char × CVal)) (k : List Char) (v : CVal) :
    List (List Char × CVal) :=
  if m.any (fun kv => kv.1 == k) then
    m.map (fun kv => if kv.1 == k then (k, v) else kv)
  else m ++ [(k, v)]

/-- Python `old.update(new)` on dicts. -/
def dictUpdate (old upd : List (List Char × CVal)) : List (List Char × CVal) :=
  upd.foldl (fun m kv => dictSet m kv.1 kv.2) old

/-- The JSON checkpoint document as read by `load_progress`; `none` fields
model keys missing from the JSON object (`dict.get` defaults). -/
structure ProgressData where
  vault_path : Option (List Char)
  processed_files : Option (List (List Char))
  deleted_files : Option (List (List Char))
  kept_files : Option (List (List Char))
  enhanced_files : Option (List (List Char))
  atomic_notes_created : Option (List (List Char))
  atomic_notes_reviewed : Option (List (List Char))
  session_start : Option (List Char)
  config : Option (List (List Char × CVal))
deriving DecidableEq

/-- The in-memory session state mutated by `load_progress`. -/
structure ReviewerState where
  vault_path : List Char
  processed_files : List (List Char)
  deleted_files : List (List Char)
  kept_files : List (List Char)
  enhanced_files : List (List Char)
  atomic_notes_created : List (List Char)
  atomic_notes_reviewed : List (List Char)
  original_session_start : Option (List Char)
  config : List (List Char × CVal)
deriving DecidableEq

/-- `load_progress` (source lines 1476–1514).  The checkpoint argument is
`none` when the progress file does not exist, `some none` when reading or
JSON-parsing raises (the `except` branch), and `some (some pd)` for a
parsed document.  `now` stands for `time.strftime(...)`, the default used
when the checkpoint lacks a `session_start`.  Returns the Python `bool`
result paired with the state after the call. -/
def load_progress (st : ReviewerState) (now : List Char)
    (file : Option (Option ProgressData)) : Bool × ReviewerState :=
  match file with
  | none => (false, st)
  | some none => (false, st)
  | some (some pd) =>
    if pd.vault_path ≠ some st.vault_path then (false, st)
    else
      (true,
        { st with
          processed_files := pd.processed_files.getD []
          deleted_files := pd.deleted_files.getD []
          kept_files := pd.kept_files.getD []
          enhanced_files := pd.enhanced_files.getD []
          atomic_notes_created := pd.atomic_notes_created.getD []
          atomic_notes_reviewed := pd.atomic_notes_reviewed.getD []
          original_session_start := some (pd.session_start.getD now)
          config := dictUpdate st.config (pd.config.getD []) })

/-- A file reported by the glob scan: its path string and `stat().st_size`
(`none` when `stat` raises, making `is_file_size_acceptable` return
`(False, 0)`). -/
structure MdFile where
  path : List Char
  size_bytes : Option Nat
deriving DecidableEq

/-- `is_file_size_acceptable` (source lines 99–110): `size_bytes / 1024 <=
max_file_size_kb`, an exact comparison because division by 1024 is exact in
IEEE doubles; the second component is `int(size_kb)`. -/
def is_file_size_acceptable (max_file_size_kb : Nat) (f : MdFile) : Bool × Nat :=
  match f.size_bytes with
  | none => (false, 0)
  | some b => (decide (b ≤ max_file_size_kb * 1024), b / 1024)

/-- `pathlib.PurePath.name`: the final path component. -/
def pathName (p : List Char) : List Char :=
  (splitOnChar '/' p).getLastD []

/-- `pathlib.PurePath.suffix`: the extension of the final component,
including the dot, empty when there is no dot after the first character. -/
def pathSuffix (p : List Char) : List Char :=
  let n := pathName p
  let tail := n.reverse.takeWhile (fun c => c ≠ '.')
  if tail.length + 2 ≤ n.length then '.' :: tail.reverse else []

/-- `find_markdown_files` (source lines 1584–1626): the glob result is
filtered to paths whose lowercased suffix is `.md`, filtered by
`is_file_size_acceptable`, sorted (Python's stable sort under the
lexicographic key order), and finally — when `processed_files` is nonempty
— filtered to paths not already processed. -/
def find_markdown_files (globbed : List MdFile) (max_kb : Nat)
    (processed : List (List Char)) : List MdFile :=
  let md := globbed.filter
    (fun f => decide ((pathSuffix f.path).map Char.toLower = ".md".toList))
  let acceptable := md.filter (fun f => (is_file_size_acceptable max_kb f).1)
  let sorted := List.insertionSort (fun a b => a.path ≤ b.path) acceptable
  if !processed.isEmpty then
    sorted.filter (fun f => decide (f.path ∉ processed))
  else sorted

/-- The inner scan `for j in range(i, len(files)): if new < files[j]:
insert_pos = j; break` — first index at or after `i` whose entry exceeds
the key. -/
def firstGreaterIdx (key : List Char) : Nat → List (List Char) → Option Nat
  | _, [] => none
  | j, f :: fs => if key < f then some j else firstGreaterIdx key (j + 1) fs

/-- `insert_pos`: the scan result, defaulting to `i` (the current
position) when no pending entry exceeds the key. -/
def findInsertPos (key : List Char) (files : List (List Char)) (i : Nat) : Nat :=
  (firstGreaterIdx key i (files.drop i)).getD i

/-- Python `list.insert(pos, x)` (for nonnegative `pos`; positions past the
end append). -/
def pyInsert (l : List (List Char)) (pos : Nat) (x : List Char) : List (List Char) :=
  l.take pos ++ x :: l.drop pos

/-- The atomic-note splice of `review_vault` (source lines 2470–2491):
`for new_note_path in sorted(new_notes)`, compute `insert_pos`, and insert
only when the key is neither processed nor already queued.  `i` is the
index of the first still-pending entry of `files`. -/
def spliceNewNotes (files : List (List Char)) (i : Nat)
    (processed : List (List Char)) (newNotes : List (List Char)) : List (List Char) :=
  (List.insertionSort (fun a b => a ≤ b) newNotes).foldl
    (fun fs key =>
      if key ∉ processed ∧ key ∉ fs then pyInsert fs (findInsertPos key fs i) key
      else fs)
    files

/-- Interpret a maximal digit run as Python `int(...)`. -/
def digitsToNat (l : List Char) : Nat :=
  l.foldl (fun n c => 10 * n + (c.toNat - '0'.toNat)) 0

/-- Case-insensitive literal match at the head of the input (all the score
and reasoning regexes are searched with `re.IGNORECASE`); returns the rest
of the input after the literal. -/
def dropLitCI : List Char → List Char → Option (List Char)
  | [], l => some l
  | _ :: _, [] => none
  | p :: ps, c :: cs => if p.toLower = c.toLower then dropLitCI ps cs else none

/-- `re.search` for an anchored matcher: try the match at every position,
left to right, including the end-of-string position. -/
def reSearch {α : Type} (m : List Char → Option α) : List Char → Option α
  | [] => m []
  | c :: r =>
    match m (c :: r) with
    | some a => some a
    | none => reSearch m r

/-- Anchored matcher for `LIT\s*(\d+)` (patterns 1, 3 and 4 of the score
list): the whitespace run is maximal and whitespace is not a digit, so the
greedy match cannot backtrack. -/
def matchScoreColon (pat : List Char) (l : List Char) : Option Nat :=
  (dropLitCI pat l).bind fun r =>
    let ds := (r.dropWhile pyIsSpace).takeWhile Char.isDigit
    if ds.isEmpty then none else some (digitsToNat ds)

/-- Anchored matcher for `"score":\s*"(\d+)"` (pattern 2). -/
def matchScoreQuoted (l : List Char) : Option Nat :=
  (dropLitCI "\"score\":".toList l).bind fun r =>
    match r.dropWhile pyIsSpace with
    | '"' :: r2 =>
      let ds := r2.takeWhile Char.isDigit
      if !ds.isEmpty && (r2.drop ds.length).take 1 = ['"'] then
        some (digitsToNat ds)
      else none
    | _ => none

/-- The lazy tail `.*?(\d+)` without `re.DOTALL`: the capture starts at the
first digit reachable without crossing a newline and is the maximal digit
run there. -/
def lazyDigits : List Char → Option Nat
  | [] => none
  | c :: r =>
    if c.isDigit then some (digitsToNat ((c :: r).takeWhile Char.isDigit))
    else if c = '\n' then none
    else lazyDigits r

/-- Anchored matcher for `LIT.*?(\d+)` (patterns 5 and 7). -/
def matchLitLazyDigits (pat : List Char) (l : List Char) : Option Nat :=
  (dropLitCI pat l).bind lazyDigits

/-- Anchored matcher for `(\d+)/10` (pattern 6): a maximal digit run
followed by the literal `/10`. -/
def matchFracTen (l : List Char) : Option Nat :=
  let ds := l.takeWhile Char.isDigit
  if !ds.isEmpty && (l.drop ds.length).take 3 = "/10".toList then
    some (digitsToNat ds)
  else none

/-- The seven `score_patterns` of `parse_ai_response_fallback`, in source
order (patterns 3 and 4 coincide under `re.IGNORECASE`). -/
def scorePatterns : List (List Char → Option Nat) :=
  [ matchScoreColon "\"score\":".toList,
    matchScoreQuoted,
    matchScoreColon "score:".toList,
    matchScoreColon "Score:".toList,
    matchLitLazyDigits "relevance score".toList,
    matchFracTen,
    matchLitLazyDigits "score".toList ]

/-- The score loop: `score = 5`, and for each pattern with a match the
score is assigned and the loop stops only when it lies in `0..10` (an
out-of-range match is kept unless a later pattern overrides it, exactly as
in the source). -/
def pickScore (t : List Char) : Nat → List (List Char → Option Nat) → Nat
  | cur, [] => cur
  | cur, p :: ps =>
    match reSearch p t with
    | none => pickScore t cur ps
    | some n => if n ≤ 10 then n else pickScore t n ps

/-- Anchored matcher for `"reasoning":\s*"([^"]+)"` (reasoning pattern 1). -/
def matchReasonQuoted (l : List Char) : Option (List Char) :=
  (dropLitCI "\"reasoning\":".toList l).bind fun r =>
    match r.dropWhile pyIsSpace with
    | '"' :: r2 =>
      let run := r2.takeWhile (fun c => c ≠ '"')
      if !run.isEmpty && (r2.drop run.length).take 1 = ['"'] then some run
      else none
    | _ => none

/-- The class `[^,}]` of reasoning patterns 2–4. -/
def notCommaBrace (c : Char) : Bool :=
  c ≠ ',' && c ≠ '\x7d'

/-- The tail `\s*([^,}]+)`: greedily the whitespace run then the maximal
class run; when the character after the whitespace is outside the class,
the regex backtracks one whitespace character and captures exactly it
(whitespace itself lies in `[^,}]`). -/
def matchWsBacktrackClass (cls : Char → Bool) (r : List Char) : Option (List Char) :=
  let ws := r.takeWhile pyIsSpace
  match r.dropWhile pyIsSpace with
  | c :: rest =>
    if cls c then some ((c :: rest).takeWhile cls)
    else
      match ws.getLast? with
      | some w => some [w]
      | none => none
  | [] =>
    match ws.getLast? with
    | some w => some [w]
    | none => none

/-- Anchored matcher for `LIT\s*([^,}]+)` (reasoning patterns 2–4). -/
def matchReasonClass (pat : List Char) (l : List Char) : Option (List Char) :=
  (dropLitCI pat l).bind (matchWsBacktrackClass notCommaBrace)

/-- Anchored matcher for `because\s+([^.]+)` (reasoning pattern 5): like
the `\s*` case but at least one whitespace character must remain with the
`\s+`, so the single-whitespace backtrack needs a run of length at least
two. -/
def matchBecause (l : List Char) : Option (List Char) :=
  (dropLitCI "because".toList l).bind fun r =>
    let ws := r.takeWhile pyIsSpace
    if ws.isEmpty then none
    else
      match r.dropWhile pyIsSpace with
      | c :: rest =>
        if c ≠ '.' then some ((c :: rest).takeWhile (fun x => x ≠ '.'))
        else if 2 ≤ ws.length then some [(ws.getLast?).getD ' ']
        else none
      | [] =>
        if 2 ≤ ws.length then some [(ws.getLast?).getD ' ']
        else none

/-- Anchored matcher for `This\s+([^.]+\.)` (reasoning pattern 6): the
class run must be followed by a literal dot, which is part of the capture. -/
def matchThis (l : List Char) : Option (List Char) :=
  (dropLitCI "This".toList l).bind fun r =>
    let ws := r.takeWhile pyIsSpace
    if ws.isEmpty then none
    else
      let rest := r.dropWhile pyIsSpace
      let run := rest.takeWhile (fun x => x ≠ '.')
      if (rest.drop run.length).take 1 = ['.'] then
        if !run.isEmpty then some (run ++ ['.'])
        else if 2 ≤ ws.length then some [(ws.getLast?).getD ' ', '.']
        else none
      else none

/-- The six `reasoning_patterns` of `parse_ai_response_fallback`, in source
order (patterns 3 and 4 coincide under `re.IGNORECASE`). -/
def reasoningPatterns : List (List Char → Option (List Char)) :=
  [ matchReasonQuoted,
    matchReasonClass "\"reasoning\":".toList,
    matchReasonClass "reasoning:".toList,
    matchReasonClass "Reasoning:".toList,
    matchBecause,
    matchThis ]

/-- `match.group(1).strip().strip('"').strip("'")`. -/
def extractClean (cap : List Char) : List Char :=
  pyStripChar '\'' (pyStripChar '"' (pyStrip cap))

/-- Whether a reasoning pattern yields usable text on `t` (a match whose
cleaned capture is longer than 10 characters). -/
def reasoningUsable (q : List Char → Option (List Char)) (t : List Char) : Bool :=
  match reSearch q t with
  | some cap => decide (10 < (extractClean cap).length)
  | none => false

/-- The reasoning loop: the first pattern whose cleaned capture has more
than 10 characters wins (truncated to 200 characters plus an ellipsis);
otherwise the default text. -/
def pickReasoning (t : List Char) : List (List Char → Option (List Char)) → List Char
  | [] => "AI analysis completed but response format was unclear.".toList
  | q :: qs =>
    match reSearch q t with
    | some cap =>
      let e := extractClean cap
      if 10 < e.length then
        if 200 < e.length then e.take 200 ++ "...".toList else e
      else pickReasoning t qs
    | none => pickReasoning t qs

/-- The result dictionary of `parse_ai_response_fallback`. -/
structure FallbackResult where
  score : Nat
  reasoning : List Char
  recommendation : String
deriving DecidableEq

/-- `parse_ai_response_fallback` (source lines 1637–1694). -/
def parse_ai_response_fallback (t : List Char) : FallbackResult :=
  let score := pickScore t 5 scorePatterns
  ⟨score,
   pickReasoning t reasoningPatterns,
   if score ≤ 4 then "remove" else if score ≤ 7 then "enhance" else "keep"⟩

/-- A parsed JSON value as far as the validation code inspects it: a
number (`int`/`float`, exactly representable as a rational), a string, or
anything else. -/
inductive JVal where
  | num (q : ℚ)
  | str (s : String)
  | other
deriving DecidableEq

/-- The dictionary produced by `json.loads` in `analyze_note_relevance`;
`none` components model missing keys. -/
structure RawResult where
  score : Option JVal
  reasoning : Option JVal
  recommendation : Option JVal
deriving DecidableEq

/-- The validated dictionary returned by `analyze_note_relevance`. -/
structure Analysis where
  score : ℚ
  reasoning : JVal
  recommendation : String
deriving DecidableEq

/-- A fallback result seen as a parsed dictionary (all three keys present). -/
def liftFallback (f : FallbackResult) : RawResult :=
  ⟨some (JVal.num f.score), some (JVal.str ⟨f.reasoning⟩), some (JVal.str f.recommendation)⟩

/-- The score-based recommendation repair of `analyze_note_relevance`. -/
def byScore (q : ℚ) : String :=
  if q ≤ 4 then "remove" else if q ≤ 7 then "enhance" else "keep"

/-- `result['score']` validation: keep a numeric score in `0..10`, else 5. -/
def validateScore (sv : Option JVal) : ℚ :=
  match sv with
  | some (JVal.num q) => if 0 ≤ q ∧ q ≤ 10 then q else 5
  | _ => 5

/-- `result['recommendation']` validation: keep a string in the closed
verdict set, otherwise recompute from the (already validated) score. -/
def validateRec (rv : Option JVal) (score : ℚ) : String :=
  match rv with
  | some (JVal.str s) =>
    if s = "remove" ∨ s = "enhance" ∨ s = "keep" then s else byScore score
  | _ => byScore score

/-- The `try` block and `except` branch of `analyze_note_relevance`
(source lines 1883–1937).  `Except.error` models the provider call (or any
step of the `try` block outside the guarded JSON parsing) raising; on
success the model receives the outcome of the `json.loads` attempts
(`none`: all parses failed, so the regex fallback runs on the cleaned
response text `raw`) and validates fields exactly as the source does. -/
def analyze_note_relevance (resp : Except Unit (Option RawResult × List Char)) :
    Analysis :=
  match resp with
  | .error _ =>
    ⟨5, JVal.str "AI analysis failed - unable to parse response. This note needs manual review.",
     "enhance"⟩
  | .ok (parsed, raw) =>
    let result0 :=
      match parsed with
      | some r => r
      | none => liftFallback (parse_ai_response_fallback raw)
    let result :=
      if result0.score.isSome && result0.reasoning.isSome && result0.recommendation.isSome
      then result0
      else liftFallback (parse_ai_response_fallback raw)
    let score := validateScore result.score
    ⟨score, result.reasoning.getD JVal.other, validateRec result.recommendation score⟩

/-- The relation by which `find_markdown_files` sorts is total. -/
instance : IsTotal MdFile (fun a b => a.path ≤ b.path) :=
  ⟨fun a b => le_total a.path b.path⟩

/-- The relation by which `find_markdown_files` sorts is transitive. -/
instance : IsTrans MdFile (fun a b => a.path ≤ b.path) :=
  ⟨fun _ _ _ h1 h2 => le_trans h1 h2⟩

set_option maxRecDepth 100000

lemma splitOnChar_ne_nil (c : Char) (l : List Char) : splitOnChar c l ≠ [] := by
  induction l with
  | nil => simp [splitOnChar]
  | cons x xs ih =>
    by_cases hx : x = c
    · simp [splitOnChar, hx]
    · simp only [splitOnChar, if_neg hx]
      cases h : splitOnChar c xs <;> simp

lemma splitOnChar_append (c : Char) (xs ys : List Char) :
    splitOnChar c (xs ++ c :: ys) = splitOnChar c xs ++ splitOnChar c ys := by
  induction xs with
  | nil => simp [splitOnChar]
  | cons x xs ih =>
    by_cases hx : x = c
    · simp [splitOnChar, hx, ih]
    · simp only [List.cons_append, splitOnChar, if_neg hx, ih]
      cases h : splitOnChar c xs with
      | nil => exact absurd h (splitOnChar_ne_nil c xs)
      | cons r rs => simp only [List.append_eq, ih, h, List.cons_append]

lemma splitOnChar_eq_single (c : Char) (l : List Char) (h : c ∉ l) :
    splitOnChar c l = [l] := by
  induction l with
  | nil => rfl
  | cons x xs ih =>
    have hx : ¬ x = c := fun e => h (e ▸ List.mem_cons_self x xs)
    simp only [splitOnChar, if_neg hx]
    rw [ih (fun hm => h (List.mem_cons_of_mem _ hm))]

lemma not_mem_of_mem_splitOnChar {c : Char} {l l' : List Char}
    (h : l' ∈ splitOnChar c l) : c ∉ l' := by
  induction l generalizing l' with
  | nil =>
    simp [splitOnChar] at h
    subst h; simp
  | cons x xs ih =>
    by_cases hx : x = c
    · simp only [splitOnChar, if_pos hx, List.mem_cons] at h
      rcases h with h | h
      · subst h; simp
      · exact ih h
    · simp only [splitOnChar, if_neg hx] at h
      cases hs : splitOnChar c xs with
      | nil => exact absurd hs (splitOnChar_ne_nil c xs)
      | cons r rs =>
        rw [hs] at h
        simp only [List.mem_cons] at h
        rcases h with h | h
        · subst h
          intro hm
          rcases List.mem_cons.mp hm with h1 | h1
          · exact hx h1.symm
          · exact ih (by rw [hs]; exact List.mem_cons_self r rs) h1
        · exact ih (by rw [hs]; exact List.mem_cons_of_mem r h)

lemma joinLines_pre_append (L L' : List (List Char)) :
    joinLines L <+: joinLines (L ++ L') := by
  induction L with
  | nil => exact ⟨joinLines L', by simp [joinLines]⟩
  | cons l L ih =>
    cases L with
    | nil =>
      cases L' with
      | nil => exact List.prefix_refl _
      | cons l2 L2 =>
        exact ⟨'\n' :: joinLines (l2 :: L2), by simp [joinLines]⟩
    | cons l2 L2 =>
      obtain ⟨t, ht⟩ := ih
      refine ⟨t, ?_⟩
      simp only [List.cons_append, joinLines] at ht ⊢
      simp only [List.append_assoc, List.cons_append]
      rw [ht]
      rfl

lemma infix_of_pre_chars {a b : List Char} (h : a <+: b) : a <:+: b := by
  obtain ⟨t, ht⟩ := h
  exact ⟨[], t, by simpa using ht⟩

lemma splitOnChar_joinLines (ls : List (List Char)) (h : ∀ l ∈ ls, '\n' ∉ l)
    (hne : ls ≠ []) : splitOnChar '\n' (joinLines ls) = ls := by
  induction ls with
  | nil => exact absurd rfl hne
  | cons l ls ih =>
    cases ls with
    | nil =>
      simp only [joinLines]
      exact splitOnChar_eq_single _ _ (h l (List.mem_cons_self _ _))
    | cons l2 ls2 =>
      have hjoin : joinLines (l :: l2 :: ls2) = l ++ '\n' :: joinLines (l2 :: ls2) := by
        simp [joinLines]
      rw [hjoin, splitOnChar_append,
        splitOnChar_eq_single '\n' l (h l (List.mem_cons_self _ _)),
        ih (fun x hx => h x (List.mem_cons_of_mem _ hx)) (by simp)]
      simp

/-- C4: identities of the preservation guard — `validate(X, X)` is always
true; `validate(X, "")` is false for nonempty `X` (the length check fires);
and `validate(X, X ++ "\nextra paragraph")` is always true (the normalized
original is a prefix, hence a substring, of the normalized candidate). -/
theorem validate_guard_identities (X : List Char) :
    validate_content_preservation X X = true
    ∧ (X ≠ [] → validate_content_preservation X [] = false)
    ∧ validate_content_preservation X (X ++ '\n' :: "extra paragraph".toList) = true := by
  refine ⟨?_, ?_, ?_⟩
  · unfold validate_content_preservation
    rw [if_neg (lt_irrefl X.length),
      if_pos (decide_eq_true (List.infix_refl (normalize_text X)))]
  · intro hX
    unfold validate_content_preservation
    rw [if_pos (by simpa using List.length_pos.mpr hX)]
  · unfold validate_content_preservation
    have hlen : ¬ (X ++ '\n' :: "extra paragraph".toList).length < X.length := by
      simp [List.length_append]
    rw [if_neg hlen]
    have hinf : normalize_text X
        <:+: normalize_text (X ++ '\n' :: "extra paragraph".toList) := by
      unfold normalize_text nonBlankStripped
      rw [splitOnChar_append,
        show splitOnChar '\n' "extra paragraph".toList = ["extra paragraph".toList]
          from by decide,
        List.map_append, List.filter_append,
        show (List.map pyStrip ["extra paragraph".toList]).filter (fun l => !l.isEmpty)
            = ["extra paragraph".toList] from by decide]
      exact infix_of_pre_chars (joinLines_pre_append _ _)
    rw [if_pos (decide_eq_true hinf)]

theorem validate_guard_identities_w :
    validate_content_preservation "a".toList "a".toList = true
    ∧ validate_content_preservation "a".toList [] = false
    ∧ validate_content_preservation "a".toList
        ("a".toList ++ '\n' :: "extra paragraph".toList) = true :=
  ⟨(validate_guard_identities "a".toList).1,
   (validate_guard_identities "a".toList).2.1 (by decide),
   (validate_guard_identities "a".toList).2.2⟩

/-- C9: when every line of the original is blank or whitespace (including
the empty original), the normalized original is empty, so any candidate at
least as long as the original passes the guard regardless of its content. -/
theorem validate_blank_original (o c : List Char)
    (h1 : ∀ l ∈ splitOnChar '\n' o, pyStrip l = [])
    (h2 : o.length ≤ c.length) :
    validate_content_preservation o c = true := by
  unfold validate_content_preservation
  rw [if_neg (Nat.not_lt.mpr h2)]
  have hno : normalize_text o = [] := by
    unfold normalize_text nonBlankStripped
    have hfil : ((splitOnChar '\n' o).map pyStrip).filter (fun l => !l.isEmpty) = [] := by
      rw [List.filter_eq_nil_iff]
      intro a ha
      obtain ⟨l, hl, rfl⟩ := List.mem_map.mp ha
      simp [h1 l hl]
    rw [hfil]
    rfl
  have hinf : normalize_text o <:+: normalize_text c := by
    rw [hno]
    exact ⟨[], normalize_text c, by simp⟩
  rw [if_pos (decide_eq_true hinf)]

theorem validate_blank_original_w :
    validate_content_preservation "  \n ".toList "abcd".toList = true :=
  validate_blank_original _ _ (by decide) (by decide)

/-- C3: when the candidate is at least as long as the original and the
normalized-substring short-circuit does not fire, the guard's verdict is
exactly "line-match fraction at least 0.8 and all links, tags and
embedded-image markers preserved". -/
theorem validate_tail_branch_iff (o e : List Char)
    (h1 : o.length ≤ e.length)
    (h2 : ¬ (normalize_text o <:+: normalize_text e)) :
    validate_content_preservation o e
      = (preservationFractionOk o e && links_preserved o e
          && tags_preserved o e && images_preserved o e) := by
  unfold validate_content_preservation
  rw [if_neg (Nat.not_lt.mpr h1), if_neg (by simpa using h2)]

theorem validate_tail_branch_iff_w :
    validate_content_preservation "abc def".toList "abc xx defgh".toList
      = (preservationFractionOk "abc def".toList "abc xx defgh".toList
          && links_preserved "abc def".toList "abc xx defgh".toList
          && tags_preserved "abc def".toList "abc xx defgh".toList
          && images_preserved "abc def".toList "abc xx defgh".toList) :=
  validate_tail_branch_iff _ _ (by decide) (by decide)

/-- C2 as stated is false: the original `[[Alpha]]` has the link `Alpha`,
the candidate `[[x[[Alpha]]` does not (its only extracted link is
`x[[Alpha`), yet the guard accepts the candidate because the normalized
original is a contiguous substring of the normalized candidate, so the
step-2 short-circuit returns true before the marker check runs. -/
theorem validate_link_loss_counterexample :
    "Alpha".toList ∈ findLinks "[[Alpha]]".toList
    ∧ "Alpha".toList ∉ findLinks "[[x[[Alpha]]".toList
    ∧ validate_content_preservation "[[Alpha]]".toList "[[x[[Alpha]]".toList = true := by
  decide

/-- C2 amended: if the original has a link that the candidate's extracted
links lack and the normalized original is not a contiguous substring of the
normalized candidate (so the step-2 short-circuit does not fire), then the
guard rejects the candidate regardless of length and line-match fraction. -/
theorem validate_link_loss_amended (o e lnk : List Char)
    (h1 : lnk ∈ findLinks o) (h2 : lnk ∉ findLinks e)
    (h3 : ¬ (normalize_text o <:+: normalize_text e)) :
    validate_content_preservation o e = false := by
  unfold validate_content_preservation
  by_cases hl : e.length < o.length
  · rw [if_pos hl]
  · rw [if_neg hl, if_neg (by simpa using h3)]
    have hlinks : links_preserved o e = false := by
      cases hcase : links_preserved o e with
      | false => rfl
      | true =>
        unfold links_preserved at hcase
        have := List.all_eq_true.mp hcase lnk h1
        exact absurd (of_decide_eq_true this) h2
    simp [hlinks]

theorem validate_link_loss_amended_w :
    validate_content_preservation "[[Alpha]]".toList "xxxxxxxxxxx".toList = false :=
  validate_link_loss_amended _ _ "Alpha".toList (by decide) (by decide) (by decide)

/-- C1: whenever the preservation guard rejects the cleaned candidate, or
the provider call raises, `enhance_note` returns the original content
unchanged (the candidate is the stripped, de-fenced, instruction-cleaned
response text, exactly what the source validates). -/
theorem enhance_note_safe_fallback (content raw : List Char) :
    (validate_content_preservation content
        (clean_leaked_instructions (stripMarkdownFence (pyStrip raw))) = false →
      enhance_note content (Except.ok raw) = content)
    ∧ enhance_note content (Except.error ()) = content := by
  constructor
  · intro h
    unfold enhance_note
    simp [h]
  · rfl

theorem enhance_note_safe_fallback_w :
    validate_content_preservation "abc".toList
        (clean_leaked_instructions (stripMarkdownFence (pyStrip "x".toList))) = false
    ∧ enhance_note "abc".toList (Except.ok "x".toList) = "abc".toList :=
  ⟨by decide, (enhance_note_safe_fallback "abc".toList "x".toList).1 (by decide)⟩

lemma mem_cleanLoop {lines : List (List Char)} {skip : Bool} {l : List Char}
    (h : l ∈ cleanLoop lines skip) :
    l ∈ lines ∧ containsInstruction l = false := by
  induction lines generalizing skip with
  | nil => simp [cleanLoop] at h
  | cons line rest ih =>
    unfold cleanLoop at h
    cases h1 : isFileColonLine line with
    | true =>
      rw [if_pos h1] at h
      exact ⟨List.mem_cons_of_mem _ (ih h).1, (ih h).2⟩
    | false =>
      rw [if_neg (by simp [h1])] at h
      cases h2 : isSafetyTrigger line with
      | true =>
        rw [if_pos h2] at h
        exact ⟨List.mem_cons_of_mem _ (ih h).1, (ih h).2⟩
      | false =>
        rw [if_neg (by simp [h2])] at h
        cases skip with
        | true =>
          rw [if_pos rfl] at h
          cases h3 : looksLikeContent line with
          | true =>
            rw [if_pos h3] at h
            rcases List.mem_cons.mp h with rfl | hmem
            · refine ⟨List.mem_cons_self _ _, ?_⟩
              unfold looksLikeContent at h3
              simp only [Bool.and_eq_true, Bool.not_eq_true'] at h3
              exact h3.2
            · exact ⟨List.mem_cons_of_mem _ (ih hmem).1, (ih hmem).2⟩
          | false =>
            rw [if_neg (by simp [h3])] at h
            exact ⟨List.mem_cons_of_mem _ (ih h).1, (ih h).2⟩
        | false =>
          rw [if_neg (by simp)] at h
          cases h4 : containsInstruction line with
          | false =>
            rw [if_pos (by simp [h4])] at h
            rcases List.mem_cons.mp h with rfl | hmem
            · exact ⟨List.mem_cons_self _ _, h4⟩
            · exact ⟨List.mem_cons_of_mem _ (ih hmem).1, (ih hmem).2⟩
          | true =>
            rw [if_neg (by simp [h4])] at h
            exact ⟨List.mem_cons_of_mem _ (ih h).1, (ih h).2⟩

lemma contains_no_file {l : List Char} (h : containsInstruction l = false) :
    ¬ ("FILE:".toList <:+: l.map Char.toUpper) := by
  intro hinf
  have hmem : "File:".toList ∈ instruction_indicators := by decide
  have hnot := List.any_eq_false.mp h _ hmem
  apply hnot
  have heq : ("File:".toList).map Char.toUpper = "FILE:".toList := by decide
  rw [heq]
  exact decide_eq_true hinf

lemma clean_core (lines : List (List Char)) (l : List Char)
    (hl : l ∈ splitOnChar '\n'
      (joinLines ((cleanLoop lines false).dropWhile (fun x => (pyStrip x).isEmpty))))
    (hno : ∀ x ∈ lines, '\n' ∉ x) :
    ¬ ("FILE:".toList <:+: l.map Char.toUpper) := by
  by_cases hempty : (cleanLoop lines false).dropWhile (fun x => (pyStrip x).isEmpty) = []
  · rw [hempty] at hl
    simp only [joinLines, splitOnChar, List.mem_singleton] at hl
    subst hl
    intro hinf
    have := hinf.length_le
    simp at this
  · have hsub : ∀ x ∈ (cleanLoop lines false).dropWhile (fun x => (pyStrip x).isEmpty),
        x ∈ cleanLoop lines false :=
      fun x hx => (List.dropWhile_sublist _).subset hx
    rw [splitOnChar_joinLines _
      (fun x hx => hno x (mem_cleanLoop (hsub x hx)).1) hempty] at hl
    exact contains_no_file (mem_cleanLoop (hsub l hl)).2

/-- C10: no line of the output of `clean_leaked_instructions` contains the
substring `file:` in any letter case — `File:` is on the indicator list and
indicator matching is case-insensitive substring containment, so every such
line (including genuine content such as `Profile: settings`) is deleted. -/
theorem clean_no_file_lines (t : List Char) :
    ∀ l ∈ splitOnChar '\n' (clean_leaked_instructions t),
      ¬ ("FILE:".toList <:+: l.map Char.toUpper) := by
  intro l hl
  simp only [clean_leaked_instructions] at hl
  exact clean_core _ l hl (fun x hx => not_mem_of_mem_splitOnChar hx)

theorem clean_no_file_lines_w :
    "a".toList ∈ splitOnChar '\n'
        (clean_leaked_instructions "a\nProfile: settings\nb".toList)
    ∧ ¬ ("FILE:".toList <:+: "a".toList.map Char.toUpper) :=
  ⟨by decide, clean_no_file_lines "a\nProfile: settings\nb".toList "a".toList (by decide)⟩

/-- C5 fails on the code: with pending remainder `["b.md"]` (current index
1) and a newly created note `"z.md"` that sorts after every pending entry,
the insertion scan finds no larger entry, leaves `insert_pos = i`, and the
code inserts `"z.md"` at the front of the pending portion.  The pending
remainder becomes `["z.md", "b.md"]`, which is not in lexicographic order,
contradicting the claimed (and comment-stated) order maintenance.  The
idempotence half of the claim is unaffected. -/
theorem splice_order_bug :
    spliceNewNotes ["a.md".toList, "b.md".toList] 1 ["a.md".toList] ["z.md".toList]
      = ["a.md".toList, "z.md".toList, "b.md".toList]
    ∧ ¬ List.Sorted (fun a b : List Char => a ≤ b)
        ((spliceNewNotes ["a.md".toList, "b.md".toList] 1
            ["a.md".toList] ["z.md".toList]).drop 1) := by
  constructor
  · decide
  · decide

/-- C6: a checkpoint whose recorded `vault_path` differs from the current
vault path makes `load_progress` return `False` with the session state
(every field, including the counters, timestamps and config) exactly as it
was before the call. -/
theorem load_progress_rejects_mismatch (st : ReviewerState) (now : List Char)
    (pd : ProgressData) (h : pd.vault_path ≠ some st.vault_path) :
    load_progress st now (some (some pd)) = (false, st) := by
  unfold load_progress
  dsimp only
  rw [if_pos h]

theorem load_progress_rejects_mismatch_w :
    load_progress ⟨"v".toList, [], [], [], [], [], [], none, []⟩ "t".toList
        (some (some ⟨some "w".toList, none, none, none, none, none, none, none, none⟩))
      = (false, ⟨"v".toList, [], [], [], [], [], [], none, []⟩) :=
  load_progress_rejects_mismatch _ _ _ (by decide)

/-- C7: the work list produced by `find_markdown_files` is sorted in
lexicographic path order and contains only entries whose lowercased suffix
is `.md`, whose size is known and at most `max_file_size_kb * 1024` bytes,
and whose path is not in the processed set. -/
theorem find_markdown_files_sound (globbed : List MdFile) (max_kb : Nat)
    (processed : List (List Char)) :
    List.Sorted (fun a b : MdFile => a.path ≤ b.path)
      (find_markdown_files globbed max_kb processed)
    ∧ ∀ f ∈ find_markdown_files globbed max_kb processed,
        (pathSuffix f.path).map Char.toLower = ".md".toList
        ∧ (∃ b, f.size_bytes = some b ∧ b ≤ max_kb * 1024)
        ∧ f.path ∉ processed := by
  have hs := List.sorted_insertionSort (fun a b : MdFile => a.path ≤ b.path)
    ((globbed.filter
        (fun f => decide ((pathSuffix f.path).map Char.toLower = ".md".toList))).filter
      (fun f => (is_file_size_acceptable max_kb f).1))
  constructor
  · unfold find_markdown_files
    split
    · exact List.Pairwise.sublist (List.filter_sublist _) hs
    · exact hs
  · intro f hf
    unfold find_markdown_files at hf
    have hcore : f ∈ List.insertionSort (fun a b : MdFile => a.path ≤ b.path)
        ((globbed.filter
            (fun f => decide ((pathSuffix f.path).map Char.toLower = ".md".toList))).filter
          (fun f => (is_file_size_acceptable max_kb f).1)) →
        (pathSuffix f.path).map Char.toLower = ".md".toList
          ∧ ∃ b, f.size_bytes = some b ∧ b ≤ max_kb * 1024 := by
      intro hmem
      have hacc := (List.perm_insertionSort _ _).subset hmem
      rw [List.mem_filter] at hacc
      obtain ⟨hmd, hsize⟩ := hacc
      rw [List.mem_filter] at hmd
      refine ⟨of_decide_eq_true hmd.2, ?_⟩
      unfold is_file_size_acceptable at hsize
      cases hb : f.size_bytes with
      | none => rw [hb] at hsize; simp at hsize
      | some b =>
        rw [hb] at hsize
        exact ⟨b, rfl, of_decide_eq_true (by simpa using hsize)⟩
    split at hf
    · rw [List.mem_filter] at hf
      obtain ⟨hf1, hf2⟩ := hf
      obtain ⟨hsuf, hsz⟩ := hcore hf1
      exact ⟨hsuf, hsz, of_decide_eq_true hf2⟩
    · next hcond =>
      obtain ⟨hsuf, hsz⟩ := hcore hf
      have hpe : processed = [] := by
        simpa [List.isEmpty_iff] using hcond
      rw [hpe]
      exact ⟨hsuf, hsz, by simp⟩

theorem find_markdown_files_sound_w :
    List.Sorted (fun a b : MdFile => a.path ≤ b.path)
      (find_markdown_files
        [⟨"b.md".toList, some 2000⟩, ⟨"a.md".toList, some 1000⟩,
         ⟨"x.md".toList, some 100⟩, ⟨"big.md".toList, some 999999⟩,
         ⟨"c.txt".toList, some 10⟩] 2 ["x.md".toList])
    ∧ ((pathSuffix ("a.md".toList)).map Char.toLower = ".md".toList
        ∧ (∃ b, (some 1000 : Option Nat) = some b ∧ b ≤ 2 * 1024)
        ∧ "a.md".toList ∉ ["x.md".toList]) :=
  ⟨(find_markdown_files_sound _ 2 _).1,
   (find_markdown_files_sound
      [⟨"b.md".toList, some 2000⟩, ⟨"a.md".toList, some 1000⟩,
       ⟨"x.md".toList, some 100⟩, ⟨"big.md".toList, some 999999⟩,
       ⟨"c.txt".toList, some 10⟩] 2 ["x.md".toList]).2
     ⟨"a.md".toList, some 1000⟩ (by decide)⟩

lemma pickScore_of_all_none {t : List Char} {cur : Nat}
    {ps : List (List Char → Option Nat)}
    (h : ∀ p ∈ ps, reSearch p t = none) : pickScore t cur ps = cur := by
  induction ps generalizing cur with
  | nil => rfl
  | cons p ps ih =>
    unfold pickScore
    rw [h p (List.mem_cons_self _ _)]
    exact ih (fun q hq => h q (List.mem_cons_of_mem _ hq))

lemma byScore_mem (q : ℚ) : byScore q ∈ (["remove", "enhance", "keep"] : List String) := by
  unfold byScore
  split_ifs <;> simp

lemma validateRec_mem (rv : Option JVal) (q : ℚ) :
    validateRec rv q ∈ (["remove", "enhance", "keep"] : List String) := by
  cases rv with
  | none => exact byScore_mem q
  | some v =>
    cases v with
    | num q' => exact byScore_mem q
    | other => exact byScore_mem q
    | str s =>
      unfold validateRec
      dsimp only
      split_ifs with h
      · rcases h with h | h | h <;> simp [h]
      · exact byScore_mem q

/-- C8: when no score pattern matches (and no reasoning pattern yields
usable text), `parse_ai_response_fallback` returns the neutral verdict —
score 5 and recommendation `enhance`; when the analysis call raises,
`analyze_note_relevance` returns score 5 and recommendation `enhance`; and
both functions always return a recommendation from the closed set
`{remove, enhance, keep}`. -/
theorem fallback_neutral_defaults :
    (∀ t : List Char,
        (∀ p ∈ scorePatterns, reSearch p t = none) →
        (∀ q ∈ reasoningPatterns, reasoningUsable q t = false) →
        (parse_ai_response_fallback t).score = 5
          ∧ (parse_ai_response_fallback t).recommendation = "enhance")
    ∧ ((analyze_note_relevance (Except.error ())).score = 5
        ∧ (analyze_note_relevance (Except.error ())).recommendation = "enhance")
    ∧ (∀ t, (parse_ai_response_fallback t).recommendation
          ∈ (["remove", "enhance", "keep"] : List String))
    ∧ (∀ resp, (analyze_note_relevance resp).recommendation
          ∈ (["remove", "enhance", "keep"] : List String)) := by
  refine ⟨?_, ⟨rfl, rfl⟩, ?_, ?_⟩
  · intro t hs _hr
    have h5 : pickScore t 5 scorePatterns = 5 := pickScore_of_all_none hs
    unfold parse_ai_response_fallback
    simp [h5]
  · intro t
    unfold parse_ai_response_fallback
    dsimp only
    split_ifs <;> simp
  · intro resp
    cases resp with
    | error e => simp [analyze_note_relevance]
    | ok pr =>
      obtain ⟨parsed, raw⟩ := pr
      simp only [analyze_note_relevance]
      exact validateRec_mem _ _

theorem fallback_neutral_defaults_w :
    (parse_ai_response_fallback "hello".toList).score = 5
    ∧ (parse_ai_response_fallback "hello".toList).recommendation = "enhance" :=
  fallback_neutral_defaults.1 "hello".toList (by decide) (by decide)
